import Mathlib

/-!
Verification development for the Minne memory facade (a Cloudflare Worker
exposing mem0-backed memory tools over MCP).  The definitions below are a
shallow embedding of the TypeScript source (`src/index.ts` and the revised
worker implementing the seven tools).  JavaScript numbers that carry
relevance scores are modelled as rationals; `typeof x === 'number'` on an
optional score field is modelled as the option being `some`; JavaScript's
stable `Array.prototype.sort` with comparator `(a, b) => key b - key a` is
modelled as a stable descending insertion sort (`sortDesc`), which produces
the same list as any stable descending sort by the same key.
-/

namespace Minne

/-- Metadata object attached to mem0 records by this facade (fields the code
reads or writes; all are absent-able since responses are loosely typed). -/
structure Metadata where
  app_context : Option String
  created_at : Option String
  last_updated : Option String
  update_reason : Option String
  previous_memory_id : Option String
deriving Repr, DecidableEq

/-- One raw item of a mem0 `search` response, as the facade reads it:
every field may be missing or of the wrong type, so each is optional
(`score = some q` models `typeof r.score === 'number'` with value `q`). -/
structure SearchResult where
  id : Option String
  memory : Option String
  score : Option ℚ
  categories : Option (List String)
  metadata : Option Metadata
deriving Repr, DecidableEq

/-- `r.metadata?.app_context` (optional chaining). -/
def appContextOf (r : SearchResult) : Option String :=
  r.metadata.bind (fun m => m.app_context)

/-- The facade's namespace tag, written into every add and checked on
every read: `"minne_worker"`. -/
def appContextTag : String := "minne_worker"

/-- The relevance filter predicate shared by the search tools:
`r.metadata?.app_context === "minne_worker" && typeof r.score === 'number'
&& r.score >= minScore`. -/
def isRelevant (minScore : ℚ) (r : SearchResult) : Bool :=
  appContextOf r == some appContextTag &&
    match r.score with
    | some s => decide (minScore ≤ s)
    | none => false

/-- Sort key used by the comparators `(a, b) => (b.score || 0) - (a.score || 0)`:
the numeric score, with `|| 0` defaulting a missing one to `0`. -/
def scoreValD (r : SearchResult) : ℚ :=
  r.score.getD 0

/-- Insert `a` into `l` in front of the first element whose key is not
greater than `key a`.  Together with `sortDesc` this is the standard stable
insertion sort in descending key order. -/
def insertDesc {α β : Type} [LinearOrder β] (key : α → β) (a : α) : List α → List α
  | [] => [a]
  | y :: ys => if key a < key y then y :: insertDesc key a ys else a :: y :: ys

/-- Stable descending sort by `key`: the model of JavaScript's stable
`Array.prototype.sort((a, b) => key b - key a)`. -/
def sortDesc {α β : Type} [LinearOrder β] (key : α → β) : List α → List α
  | [] => []
  | a :: l => insertDesc key a (sortDesc key l)

/-- The filter-sort-truncate pipeline shared by the search tools:
`results.filter(isRelevant).sort((a,b) => (b.score||0)-(a.score||0)).slice(0, maxCount)`. -/
def filterAndRank (results : List SearchResult) (minScore : ℚ) (maxCount : ℕ) :
    List SearchResult :=
  (sortDesc scoreValD (results.filter (isRelevant minScore))).take maxCount

/-- Threshold used by `searchMemories` (`r.score >= 0.7`). -/
def searchMemoriesMinScore : ℚ := mkRat 7 10

/-- Threshold used by `getRelevantContext` (`r.score >= 0.6`). -/
def getRelevantContextMinScore : ℚ := mkRat 6 10

/-- Threshold used by `searchByCategory` (`r.score >= 0.3`). -/
def searchByCategoryMinScore : ℚ := mkRat 3 10

/-- `searchMemories` truncates to `slice(0, 5)`. -/
def searchMemoriesMaxCount : ℕ := 5

/-- The memory list rendered by `searchMemories` for a raw result list. -/
def searchMemoriesTop (results : List SearchResult) : List SearchResult :=
  filterAndRank results searchMemoriesMinScore searchMemoriesMaxCount

/-- Category normalization `category.toLowerCase().trim()`, modelled per
character over the string's character list (ASCII case folding and
whitespace trimming at both ends, which covers the category strings the
remote service produces). -/
def normCat (c : String) : String :=
  String.mk
    ((((c.data.map Char.toLower).dropWhile Char.isWhitespace).reverse.dropWhile
        Char.isWhitespace).reverse)

/-- One step of the aggregation loop of `getMemoryCategories`:
`categoryMap.set(k, (categoryMap.get(k) || 0) + 1)` on a JavaScript `Map`,
which keeps an existing key at its position and appends a new key. -/
def bumpCat : List (String × ℕ) → String → List (String × ℕ)
  | [], k => [(k, 1)]
  | (k', n) :: m, k =>
      if k' = k then (k', n + 1) :: m else (k', n) :: bumpCat m k

/-- The insertion-ordered category counter `getMemoryCategories` builds by
iterating over every record's `categories` array (the record loop flattens
to one pass over all category strings). -/
def categoryMap (cats : List String) : List (String × ℕ) :=
  cats.foldl (fun m c => bumpCat m (normCat c)) []

/-- The distinct normalized categories in order of first appearance (the key
order of a JavaScript `Map` built by the aggregation loop). -/
def firstSeenKeys (cats : List String) : List String :=
  cats.foldl (fun acc c => if normCat c ∈ acc then acc else acc ++ [normCat c]) []

/-- The `(category, count)` list `getMemoryCategories` renders: the counter
entries sorted by `(a, b) => b[1] - a[1]` (stable, descending by count).
`records` holds each relevant result's `categories` array. -/
def aggregateCategories (records : List (List String)) : List (String × ℕ) :=
  sortDesc (fun p => p.2) (categoryMap (records.flatMap (fun cs => cs)))

/-- First-occurrence lookup in the counter, the model of `Map.get`. -/
def lookupCat : List (String × ℕ) → String → Option ℕ
  | [], _ => none
  | (k', n) :: m, k => if k' = k then some n else lookupCat m k

/-- A loosely typed JavaScript value, as the facade receives it from the
remote store (the `any`-typed responses). -/
inductive Raw where
  | str (s : String)
  | num (q : ℚ)
  | boolean (b : Bool)
  | null
  | arr (items : List Raw)
  | obj (fields : List (String × Raw))
deriving Repr

/-- First-match field lookup in an object (response objects carry each key
at most once). -/
def lookupField : List (String × Raw) → String → Option Raw
  | [], _ => none
  | (k', v) :: fs, k => if k' = k then some v else lookupField fs k

/-- JavaScript property read on a value (`none` models `undefined`):
objects expose their fields, arrays and strings their implicit `length`,
primitives nothing. -/
def getProp : Raw → String → Option Raw
  | .obj fs, k => lookupField fs k
  | .arr items, k => if k = "length" then some (.num items.length) else none
  | .str s, k => if k = "length" then some (.num s.length) else none
  | _, _ => none

/-- Optional chaining `v?.k`: short-circuits on `undefined` and `null`. -/
def optProp (v : Option Raw) (k : String) : Option Raw :=
  match v with
  | none => none
  | some .null => none
  | some w => getProp w k

/-- JavaScript truthiness of a possibly-undefined value (`NaN` does not
arise in the rational model). -/
def truthy : Option Raw → Bool
  | none => false
  | some (.str s) => !(s == "")
  | some (.num q) => !(q == 0)
  | some (.boolean b) => b
  | some .null => false
  | some (.arr _) => true
  | some (.obj _) => true

/-- The guard `x?.length > 0`: true only when the length read yields a
positive number (a boolean coerces to 0/1; string-to-number coercion of an
explicit `length` field is not modelled, the implicit length of an array or
string is always numeric). -/
def jsNumGtZero : Option Raw → Bool
  | some (.num q) => decide (0 < q)
  | some (.boolean b) => b
  | _ => false

/-- JavaScript string coercion of a value reaching a text position
(template literal or `Array.prototype.join`).  Number rendering is the
rational's canonical form and nested arrays are elided: every claim below
exercises this only on strings, where it is the identity. -/
def jsString : Raw → String
  | .str s => s
  | .num q => toString q
  | .boolean b => if b then "true" else "false"
  | .null => "null"
  | .arr _ => ""
  | .obj _ => "[object Object]"

/-- `Array.prototype.join(sep)` over already-coerced strings. -/
def joinSep (sep : String) : List String → String
  | [] => ""
  | [s] => s
  | s :: rest => s ++ sep ++ joinSep sep rest

/-- The fallback notice `extractMemoryText` returns when no shape matched
and no text was extracted. -/
def fallbackNotice : String := "Memory processed successfully."

/-- The final `return` of `extractMemoryText`: the collected texts joined
with `'; '`, or the fallback notice when none were collected. -/
def finishTexts (texts : List Raw) : String :=
  if texts.isEmpty then fallbackNotice else joinSep "; " (texts.map jsString)

/-- Texts one array element contributes in the array branch of
`extractMemoryText`: `item?.data?.memory` first, then a bare string
element, then `item?.text`, then `item?.memory` (all truthiness-guarded
except the string case, which is a `typeof` check). -/
def extractItemTexts (item : Raw) : List Raw :=
  if truthy (optProp (optProp (some item) "data") "memory") then
    [((optProp (optProp (some item) "data") "memory").getD .null)]
  else
    match item with
    | .str s => [.str s]
    | _ =>
      if truthy (optProp (some item) "text") then
        [((optProp (some item) "text").getD .null)]
      else if truthy (optProp (some item) "memory") then
        [((optProp (some item) "memory").getD .null)]
      else []

/-- Texts one element of a `memories` array contributes: `mem?.text`, then
`mem?.memory` (truthiness-guarded). -/
def memTexts (mem : Raw) : List Raw :=
  if truthy (optProp (some mem) "text") then
    [((optProp (some mem) "text").getD .null)]
  else if truthy (optProp (some mem) "memory") then
    [((optProp (some mem) "memory").getD .null)]
  else []

/-- The private `extractMemoryText(response)` normalizer of the facade,
embedded with its JavaScript evaluation order: early return for a bare
string; one pass over an array collecting per-element texts; otherwise the
`response?.memories?.length > 0` guard (whose `forEach` throws a
`TypeError` when `memories` is not an array), then truthiness-guarded
early returns of `response.message` and `response.text` (returned as-is,
whatever their type); finally the collected texts joined, or the fallback
notice.  `Except.error` models a thrown exception. -/
def extractMemoryText (response : Raw) : Except String Raw :=
  match response with
  | .str s => .ok (.str s)
  | .arr items =>
      .ok (.str (finishTexts (items.foldl (fun acc item => acc ++ extractItemTexts item) [])))
  | other =>
      if jsNumGtZero (optProp (optProp (some other) "memories") "length") then
        match optProp (some other) "memories" with
        | some (.arr mems) =>
            .ok (.str (finishTexts (mems.foldl (fun acc mem => acc ++ memTexts mem) [])))
        | _ => .error "response.memories.forEach is not a function"
      else if truthy (optProp (some other) "message") then
        .ok ((optProp (some other) "message").getD .null)
      else if truthy (optProp (some other) "text") then
        .ok ((optProp (some other) "text").getD .null)
      else
        .ok (.str fallbackNotice)

/-- A record returned by `memoryClient.get` (`memory = some s` models
`typeof memoryData.memory === 'string'` with value `s`). -/
structure MemRecord where
  memory : Option String
  metadata : Option Metadata
deriving Repr, DecidableEq

/-- One call the facade makes to the remote store.  `add` and `search`
carry the `user_id` the code passes in their options; `get` and `delete`
take only the memory id, exactly as in the code. -/
inductive StoreCall where
  | add (user_id : String) (content : String) (metadata : Metadata)
  | search (user_id : String) (query : String)
  | get (id : String)
  | delete (id : String)
deriving Repr, DecidableEq

/-- The user scope a store call carries, if any. -/
def StoreCall.userScope : StoreCall → Option String
  | .add u _ _ => some u
  | .search u _ => some u
  | .get _ => none
  | .delete _ => none

/-- What a tool invocation hands back to the transport.  The fixed texts
(authentication failure, not-found, empty-result and error messages, the
update success template) are embedded verbatim; the pretty-printed body of
a result list (numbered lines, percentages, relative dates) is presentation
detail, so a formatted list is carried as the selected data instead. -/
inductive ToolOutcome where
  | text (s : String)
  | rendered (rs : List SearchResult)
  | renderedCats (cs : List (String × ℕ)) (includeCount : Bool)
deriving Repr, DecidableEq

/-- Result of one tool invocation: its outcome and the store calls it made,
in order. -/
structure ToolRun where
  outcome : ToolOutcome
  calls : List StoreCall
deriving Repr, DecidableEq

/-- The fixed unauthenticated-response text of the gated tools. -/
def notAuthText : String := "Error: User not authenticated."

/-- Truthiness-based defaulting `x || d` on an optional string. -/
def jsOrStr : Option String → String → String
  | some s, d => if s = "" then d else s
  | none, d => d

/-- `s.includes(t)` on strings. -/
def jsIncludes (s t : String) : Bool := decide (t.data <:+: s.data)

/-- ASCII model of `String.prototype.toLowerCase`. -/
def jsToLower (s : String) : String := String.mk (s.data.map Char.toLower)

/-- Number of memories a run renders (0 for a plain text outcome). -/
def renderedCount (t : ToolRun) : ℕ :=
  match t.outcome with
  | .rendered rs => rs.length
  | _ => 0

/-- `arr.slice(0, e)` with a possibly negative integer end, which
JavaScript interprets as an offset from the end of the array. -/
def jsSliceEnd {α : Type} (l : List α) (e : ℤ) : List α :=
  if e < 0 then l.take (l.length - (-e).toNat) else l.take e.toNat

/-- The category-overlap test of `searchByCategory`: some record category
and some requested category include one another case-insensitively. -/
def categoryMatch (categories : List String) (r : SearchResult) : Bool :=
  match r.categories with
  | some cats =>
      cats.any (fun cat => categories.any (fun searchCat =>
        jsIncludes (jsToLower cat) (jsToLower searchCat) ||
          jsIncludes (jsToLower searchCat) (jsToLower cat)))
  | none => false

/-- Responses the remote store gives one `updateMemory` run: the `get`,
`delete` and `add` results in turn (`Except.error` models a throw). -/
structure UpdateOracle where
  getResult : Except String (Option MemRecord)
  deleteResult : Except String Unit
  addResult : Except String Raw

/-- Responses the remote store gives a `deleteMemory` batch, per memory id. -/
structure DeleteOracle where
  getResult : String → Except String (Option MemRecord)
  deleteResult : String → Except String Unit

/-- The `addMemory` tool: authentication gate, then one `add` call carrying
the caller's `user_id` and the facade metadata, whose response is
normalized by `extractMemoryText` (a throw anywhere is caught and reported
as the add-error text). -/
def addMemory (login : Option String) (content : String) (currentDate : String)
    (o : Except String Raw) : ToolRun :=
  match login with
  | none => ⟨.text notAuthText, []⟩
  | some user =>
      let meta : Metadata :=
        { app_context := some appContextTag, created_at := some currentDate,
          last_updated := some currentDate, update_reason := none,
          previous_memory_id := none }
      match o with
      | .error e => ⟨.text ("Error adding memory: " ++ e), [.add user content meta]⟩
      | .ok resp =>
          match extractMemoryText resp with
          | .error e => ⟨.text ("Error adding memory: " ++ e), [.add user content meta]⟩
          | .ok v => ⟨.text (jsString v), [.add user content meta]⟩

/-- The `searchMemories` tool: authentication gate, one `search` call
scoped to the caller, then the 0.7-threshold filter, stable descending
sort and `slice(0, 5)`. -/
def searchMemories (login : Option String) (query : String)
    (o : Except String (List SearchResult)) : ToolRun :=
  match login with
  | none => ⟨.text notAuthText, []⟩
  | some user =>
      match o with
      | .error e => ⟨.text ("Error searching memories: " ++ e), [.search user query]⟩
      | .ok results =>
          let relevant := results.filter (isRelevant searchMemoriesMinScore)
          if relevant.isEmpty then
            ⟨.text "No highly relevant memories found. Try a more specific search query or different keywords.",
              [.search user query]⟩
          else
            ⟨.rendered (filterAndRank results searchMemoriesMinScore searchMemoriesMaxCount),
              [.search user query]⟩

/-- The `searchByCategory` tool: authentication gate, one `search` call on
the query (or the joined category names), then the 0.3-threshold filter
with the category-overlap test, stable descending sort and
`slice(0, limit)`. -/
def searchByCategory (login : Option String) (categories : List String)
    (query : Option String) (limit : ℕ)
    (o : Except String (List SearchResult)) : ToolRun :=
  match login with
  | none => ⟨.text notAuthText, []⟩
  | some user =>
      let searchQuery := jsOrStr query (joinSep " " categories)
      match o with
      | .error e =>
          ⟨.text ("Error searching by category: " ++ e), [.search user searchQuery]⟩
      | .ok results =>
          let relevant := results.filter (fun r =>
            isRelevant searchByCategoryMinScore r && categoryMatch categories r)
          if relevant.isEmpty then
            ⟨.text ("No memories found in categories: " ++ joinSep ", " categories ++
                ". Try different category names or check available categories with getMemoryCategories."),
              [.search user searchQuery]⟩
          else
            ⟨.rendered ((sortDesc scoreValD relevant).take limit), [.search user searchQuery]⟩

/-- The `getMemoryCategories` tool: authentication gate, one wildcard
`search` call, then the tag-and-nonempty-categories filter and the
frequency-sorted category aggregation. -/
def getMemoryCategories (login : Option String) (includeCount : Bool)
    (o : Except String (List SearchResult)) : ToolRun :=
  match login with
  | none => ⟨.text notAuthText, []⟩
  | some user =>
      match o with
      | .error e =>
          ⟨.text ("Error getting memory categories: " ++ e), [.search user "*"]⟩
      | .ok results =>
          let relevant := results.filter (fun r =>
            appContextOf r == some appContextTag &&
              match r.categories with
              | some cats => !cats.isEmpty
              | none => false)
          if relevant.isEmpty then
            ⟨.text "No categorized memories found. Add some memories first, and mem0 will automatically categorize them.",
              [.search user "*"]⟩
          else
            ⟨.renderedCats
                (aggregateCategories (relevant.map (fun r => r.categories.getD [])))
                includeCount,
              [.search user "*"]⟩

/-- The `getRelevantContext` tool: authentication gate, one `search` call
on the conversation context, then the 0.6-threshold filter, stable
descending sort and `slice(0, Math.min(maxResults, 5))` with the declared
default `maxResults = 3`. -/
def getRelevantContext (login : Option String) (conversationContext : String)
    (maxResults : Option ℤ) (o : Except String (List SearchResult)) : ToolRun :=
  match login with
  | none => ⟨.text notAuthText, []⟩
  | some user =>
      match o with
      | .error e =>
          ⟨.text ("Error retrieving context: " ++ e), [.search user conversationContext]⟩
      | .ok results =>
          let relevant := results.filter (isRelevant getRelevantContextMinScore)
          if relevant.isEmpty then
            ⟨.text "No contextually relevant memories found for this conversation.",
              [.search user conversationContext]⟩
          else
            ⟨.rendered (jsSliceEnd (sortDesc scoreValD relevant)
                (min (maxResults.getD 3) 5)),
              [.search user conversationContext]⟩

/-- The `updateMemory` tool: authentication gate, then fetch by id
(`NotFound` text when absent), delete by id, and an `add` scoped to the
caller carrying the preserved `created_at` (truthiness-defaulted to the
current date), a fresh `last_updated`, the defaulted `update_reason` and
the `previous_memory_id` back-reference; any throw lands in the single
catch-all `Error updating memory` text. -/
def updateMemory (login : Option String) (memoryId newContent : String)
    (reason : Option String) (currentDate : String) (o : UpdateOracle) : ToolRun :=
  match login with
  | none => ⟨.text notAuthText, []⟩
  | some user =>
      match o.getResult with
      | .error e => ⟨.text ("Error updating memory: " ++ e), [.get memoryId]⟩
      | .ok none =>
          ⟨.text ("Error: Memory with ID " ++ memoryId ++ " not found."), [.get memoryId]⟩
      | .ok (some existingMemory) =>
          match o.deleteResult with
          | .error e =>
              ⟨.text ("Error updating memory: " ++ e), [.get memoryId, .delete memoryId]⟩
          | .ok _ =>
              let meta : Metadata :=
                { app_context := some appContextTag,
                  created_at :=
                    some (jsOrStr (existingMemory.metadata.bind (fun m => m.created_at))
                      currentDate),
                  last_updated := some currentDate,
                  update_reason := some (jsOrStr reason "Information updated"),
                  previous_memory_id := some memoryId }
              let calls := [StoreCall.get memoryId, .delete memoryId,
                .add user newContent meta]
              match o.addResult with
              | .error e => ⟨.text ("Error updating memory: " ++ e), calls⟩
              | .ok resp =>
                  match extractMemoryText resp with
                  | .error e => ⟨.text ("Error updating memory: " ++ e), calls⟩
                  | .ok extracted =>
                      let oldContent :=
                        match existingMemory.memory with
                        | some s => s
                        | none => "Previous content"
                      ⟨.text ("Memory updated successfully!\n\nOld: \"" ++ oldContent ++
                          "\"\nNew: \"" ++ jsString extracted ++ "\"\n" ++
                          (match reason with
                           | some r => if r = "" then "" else "Reason: " ++ r
                           | none => "")),
                        calls⟩

/-- One iteration of the `deleteMemory` loop, as a function of the id and
the store's two responses for it: fetch the record to name it in the
report, attempt the delete, and produce the per-id report line and the
calls made (the catch covers both the `get` and the `delete`). -/
def deleteOneAt (memoryId : String) (g : Except String (Option MemRecord))
    (d : Except String Unit) : String × List StoreCall :=
  match g with
  | .error e => ("Error deleting memory " ++ memoryId ++ ": " ++ e, [.get memoryId])
  | .ok memoryData =>
      let memoryContent :=
        match memoryData with
        | some rec =>
            match rec.memory with
            | some s => "\"" ++ s ++ "\""
            | none => "Memory with ID " ++ memoryId
        | none => "Memory with ID " ++ memoryId
      match d with
      | .error e =>
          ("Error deleting memory " ++ memoryId ++ ": " ++ e,
            [.get memoryId, .delete memoryId])
      | .ok _ => ("Deleted: " ++ memoryContent, [.get memoryId, .delete memoryId])

/-- The loop body applied to an oracle: each id's outcome depends only on
that id's own store responses. -/
def deleteOne (o : DeleteOracle) (memoryId : String) : String × List StoreCall :=
  deleteOneAt memoryId (o.getResult memoryId) (o.deleteResult memoryId)

/-- Whether the `get` for an id succeeded (so the loop reaches its
`delete`). -/
def getOk (o : DeleteOracle) (memoryId : String) : Bool :=
  match o.getResult memoryId with
  | .ok _ => true
  | .error _ => false

/-- The `deleteMemory` tool: the handler closure captures `login` like the
other tools but never reads it — there is no authentication gate — so the
per-id loop runs regardless, collecting one report line per id and
returning them joined as a single text result. -/
def deleteMemory (login : Option String) (memoryIds : List String)
    (o : DeleteOracle) : ToolRun :=
  let acc := memoryIds.foldl
    (fun acc memoryId =>
      let r := deleteOne o memoryId
      (acc.1 ++ [r.1], acc.2 ++ r.2))
    ([], [])
  ⟨.text (joinSep "\n" acc.1), acc.2⟩

/-- Sample metadata of a stored record, used by concrete scenarios. -/
def sampleMetadata : Metadata :=
  { app_context := some appContextTag,
    created_at := some "2024-01-01T00:00:00.000Z",
    last_updated := some "2024-01-01T00:00:00.000Z",
    update_reason := none, previous_memory_id := none }

/-- Sample stored record. -/
def sampleRecord : MemRecord :=
  { memory := some "User prefers dark mode", metadata := some sampleMetadata }

/-- Store behavior for a fully successful update. -/
def updateOracleOk : UpdateOracle :=
  { getResult := .ok (some sampleRecord), deleteResult := .ok (),
    addResult := .ok (.str "User prefers light mode") }

/-- Store behavior where the delete step throws. -/
def updateOracleDeleteFails : UpdateOracle :=
  { getResult := .ok (some sampleRecord), deleteResult := .error "boom",
    addResult := .ok (.str "x") }

/-- Store behavior where the delete succeeds and the recreate add throws:
the data-loss case. -/
def updateOracleAddFails : UpdateOracle :=
  { getResult := .ok (some sampleRecord), deleteResult := .ok (),
    addResult := .error "boom" }

/-- Store behavior for a batch where id `A` exists and id `B` does not
(its `get` throws). -/
def sampleDeleteOracle : DeleteOracle :=
  { getResult := fun memoryId =>
      if memoryId = "A" then .ok (some sampleRecord) else .error "Memory not found",
    deleteResult := fun _ => .ok () }

/-- A relevant search result tagged for this facade, with the given score. -/
def taggedResult (sc : ℚ) : SearchResult :=
  { id := some "id-1", memory := some "User prefers dark mode",
    score := some sc, categories := none, metadata := some sampleMetadata }

/-- Three admissible results for the contextual-retrieval scenarios. -/
def ctxResults : List SearchResult :=
  [taggedResult (mkRat 9 10), taggedResult (mkRat 8 10), taggedResult (mkRat 7 10)]

theorem insertDesc_perm {α β : Type} [LinearOrder β] (key : α → β) (a : α) :
    ∀ l : List α, List.Perm (insertDesc key a l) (a :: l) := by
  intro l
  induction l with
  | nil => exact List.Perm.refl _
  | cons y ys ih =>
    by_cases h : key a < key y
    · simp only [insertDesc, if_pos h]
      exact List.Perm.trans (List.Perm.cons y ih) (List.Perm.swap a y ys)
    · simp only [insertDesc, if_neg h]
      exact List.Perm.refl _

theorem sortDesc_perm {α β : Type} [LinearOrder β] (key : α → β) :
    ∀ l : List α, List.Perm (sortDesc key l) l := by
  intro l
  induction l with
  | nil => exact List.Perm.refl _
  | cons a l ih =>
    exact List.Perm.trans (insertDesc_perm key a (sortDesc key l))
      (List.Perm.cons a ih)

theorem insertDesc_pairwise {α β : Type} [LinearOrder β] (key : α → β) (a : α)
    {l : List α} (hl : l.Pairwise (fun x y => key y ≤ key x)) :
    (insertDesc key a l).Pairwise (fun x y => key y ≤ key x) := by
  induction l with
  | nil => simp [insertDesc]
  | cons y ys ih =>
    rcases List.pairwise_cons.mp hl with ⟨hy, hys⟩
    by_cases h : key a < key y
    · simp only [insertDesc, if_pos h]
      refine List.pairwise_cons.mpr ⟨?_, ih hys⟩
      intro z hz
      have hz' := (insertDesc_perm key a ys).mem_iff.mp hz
      rcases List.mem_cons.mp hz' with rfl | hz''
      · exact le_of_lt h
      · exact hy z hz''
    · simp only [insertDesc, if_neg h]
      refine List.pairwise_cons.mpr ⟨?_, hl⟩
      intro z hz
      rcases List.mem_cons.mp hz with rfl | hz'
      · exact not_lt.mp h
      · exact le_trans (hy z hz') (not_lt.mp h)

theorem sortDesc_pairwise {α β : Type} [LinearOrder β] (key : α → β) :
    ∀ l : List α, (sortDesc key l).Pairwise (fun x y => key y ≤ key x) := by
  intro l
  induction l with
  | nil => simp [sortDesc]
  | cons a l ih => exact insertDesc_pairwise key a ih

theorem insertDesc_filter_key_eq {α β : Type} [LinearOrder β] (key : α → β)
    (a : α) (q : β) (ha : key a = q) :
    ∀ l : List α,
      (insertDesc key a l).filter (fun x => key x == q) =
        a :: l.filter (fun x => key x == q) := by
  subst ha
  intro l
  induction l with
  | nil => simp [insertDesc]
  | cons y ys ih =>
    by_cases h : key a < key y
    · have hy : (key y == key a) = false := beq_false_of_ne (ne_of_gt h)
      simp [insertDesc, if_pos h, List.filter_cons, hy, ih]
    · simp [insertDesc, if_neg h, List.filter_cons]

theorem insertDesc_filter_key_ne {α β : Type} [LinearOrder β] (key : α → β)
    (a : α) (q : β) (ha : key a ≠ q) :
    ∀ l : List α,
      (insertDesc key a l).filter (fun x => key x == q) =
        l.filter (fun x => key x == q) := by
  intro l
  induction l with
  | nil => simp [insertDesc, beq_false_of_ne ha]
  | cons y ys ih =>
    by_cases h : key a < key y
    · simp [insertDesc, if_pos h, List.filter_cons, ih]
    · simp [insertDesc, if_neg h, List.filter_cons, beq_false_of_ne ha]

/-- Stability of the modelled JavaScript sort: within any one key value the
sorted list keeps exactly the original order of elements. -/
theorem sortDesc_filter_key {α β : Type} [LinearOrder β] (key : α → β) (q : β) :
    ∀ l : List α,
      (sortDesc key l).filter (fun x => key x == q) =
        l.filter (fun x => key x == q) := by
  intro l
  induction l with
  | nil => simp [sortDesc]
  | cons a l ih =>
    by_cases ha : key a = q
    · rw [show sortDesc key (a :: l) = insertDesc key a (sortDesc key l) from rfl,
        insertDesc_filter_key_eq key a q ha, ih]
      simp [List.filter, beq_iff_eq, ha]
    · rw [show sortDesc key (a :: l) = insertDesc key a (sortDesc key l) from rfl,
        insertDesc_filter_key_ne key a q ha, ih]
      simp [List.filter, beq_false_of_ne ha]

theorem isRelevant_iff (minScore : ℚ) (r : SearchResult) :
    isRelevant minScore r = true ↔
      appContextOf r = some appContextTag ∧
        ∃ s, r.score = some s ∧ minScore ≤ s := by
  unfold isRelevant
  cases hs : r.score with
  | none => simp [hs]
  | some s => simp [hs]

/-- C4: stated as claimed, broad search (`searchMemories`) would use a lower
threshold than contextual retrieval (`getRelevantContext`).  The code has
`0.7` for broad search and `0.6` for contextual retrieval, so the claimed
strict inequality is false. -/
theorem relevanceThresholds_counterexample :
    ¬ (searchMemoriesMinScore < getRelevantContextMinScore) := by
  decide

/-- C4 (amended): the thresholds are ordered `searchByCategory (0.3) <
getRelevantContext (0.6) < searchMemories (0.7)`: category search uses the
lowest threshold as claimed, but broad search uses a strictly higher
threshold than contextual retrieval, the opposite of the claimed relation
between those two. -/
theorem relevanceThresholds_order :
    searchByCategoryMinScore < getRelevantContextMinScore ∧
      getRelevantContextMinScore < searchMemoriesMinScore := by
  decide

/-- C5: for every raw result list, threshold and maximum count, (1) a result
is kept by the relevance filter iff its `app_context` metadata equals the
facade tag and its score is a numeric value at least the threshold; the
pipeline output (2) is sorted by descending score, (3) is a permutation of
the admissible results before truncation, (4) keeps the original store order
within every score value (stable sort), (5) has at most `maxCount` elements,
and (6) is exactly the sorted admissible list truncated to `maxCount`. -/
theorem filterAndRank_spec (results : List SearchResult) (minScore : ℚ)
    (maxCount : ℕ) :
    (∀ r, r ∈ results.filter (isRelevant minScore) ↔
        r ∈ results ∧ appContextOf r = some appContextTag ∧
          ∃ s, r.score = some s ∧ minScore ≤ s) ∧
    (filterAndRank results minScore maxCount).Pairwise
      (fun a b => scoreValD b ≤ scoreValD a) ∧
    List.Perm (sortDesc scoreValD (results.filter (isRelevant minScore)))
      (results.filter (isRelevant minScore)) ∧
    (∀ q : ℚ,
      (sortDesc scoreValD (results.filter (isRelevant minScore))).filter
          (fun r => scoreValD r == q) =
        (results.filter (isRelevant minScore)).filter
          (fun r => scoreValD r == q)) ∧
    (filterAndRank results minScore maxCount).length ≤ maxCount ∧
    filterAndRank results minScore maxCount =
      (sortDesc scoreValD (results.filter (isRelevant minScore))).take
        maxCount := by
  refine ⟨?_, ?_, ?_, ?_, ?_, rfl⟩
  · intro r
    rw [List.mem_filter, isRelevant_iff]
  · exact List.Pairwise.sublist (List.take_sublist _ _)
      (sortDesc_pairwise scoreValD _)
  · exact sortDesc_perm scoreValD _
  · intro q
    exact sortDesc_filter_key scoreValD q _
  · exact List.length_take_le _ _

theorem lookupCat_bumpCat (m : List (String × ℕ)) (k k' : String) :
    lookupCat (bumpCat m k) k' =
      if k' = k then some ((lookupCat m k).getD 0 + 1) else lookupCat m k' := by
  induction m with
  | nil =>
    by_cases h : k' = k
    · subst h; simp [bumpCat, lookupCat]
    · simp [bumpCat, lookupCat, h, Ne.symm h]
  | cons p m ih =>
    obtain ⟨a, n⟩ := p
    by_cases hak : a = k
    · subst hak
      by_cases h : k' = a
      · subst h; simp [bumpCat, lookupCat]
      · simp [bumpCat, lookupCat, h, Ne.symm h]
    · by_cases h : k' = k
      · subst h
        simp [bumpCat, lookupCat, hak, ih]
      · by_cases hak' : a = k'
        · subst hak'
          simp [bumpCat, lookupCat, hak, h]
        · simp [bumpCat, lookupCat, hak, hak', h, ih]

theorem bumpCat_keys (m : List (String × ℕ)) (k : String) :
    (bumpCat m k).map Prod.fst =
      if k ∈ m.map Prod.fst then m.map Prod.fst
      else m.map Prod.fst ++ [k] := by
  induction m with
  | nil => simp [bumpCat]
  | cons p m ih =>
    obtain ⟨a, n⟩ := p
    by_cases hak : a = k
    · subst hak; simp [bumpCat]
    · simp only [bumpCat, if_neg hak, List.map_cons, ih]
      by_cases hk : k ∈ m.map Prod.fst <;> simp [hk, hak, Ne.symm hak]

theorem bumpCat_keys_nodup {m : List (String × ℕ)} (k : String)
    (hm : (m.map Prod.fst).Nodup) : ((bumpCat m k).map Prod.fst).Nodup := by
  rw [bumpCat_keys]
  by_cases hk : k ∈ m.map Prod.fst
  · simpa [hk] using hm
  · simp only [hk, if_false]
    rw [List.nodup_append]
    exact ⟨hm, List.nodup_singleton k, by simpa using hk⟩

theorem categoryMap_keys_nodup (cats : List String) :
    ((categoryMap cats).map Prod.fst).Nodup := by
  suffices h : ∀ (l : List String) (m : List (String × ℕ)),
      (m.map Prod.fst).Nodup →
      ((l.foldl (fun m c => bumpCat m (normCat c)) m).map Prod.fst).Nodup by
    exact h cats [] (by simp)
  intro l
  induction l with
  | nil => intro m hm; simpa using hm
  | cons c l ih =>
    intro m hm
    exact ih (bumpCat m (normCat c)) (bumpCat_keys_nodup (normCat c) hm)

theorem mem_iff_lookupCat {m : List (String × ℕ)}
    (hm : (m.map Prod.fst).Nodup) (k : String) (n : ℕ) :
    (k, n) ∈ m ↔ lookupCat m k = some n := by
  induction m with
  | nil => simp [lookupCat]
  | cons p m ih =>
    obtain ⟨a, c⟩ := p
    rw [List.map_cons, List.nodup_cons] at hm
    by_cases hak : a = k
    · subst hak
      simp only [lookupCat, if_pos rfl, List.mem_cons]
      constructor
      · rintro (h | h)
        · simpa using congrArg Prod.snd h.symm
        · exact absurd (List.mem_map_of_mem Prod.fst h) hm.1
      · rintro h
        exact Or.inl (by simpa using h.symm)
    · simp only [lookupCat, if_neg hak, List.mem_cons]
      rw [← ih hm.2]
      constructor
      · rintro (h | h)
        · exact absurd (congrArg Prod.fst h).symm hak
        · exact h
      · exact Or.inr

theorem foldl_bumpCat_lookup (cats : List String) :
    ∀ (m : List (String × ℕ)) (k : String),
      lookupCat (cats.foldl (fun m c => bumpCat m (normCat c)) m) k =
        if lookupCat m k = none ∧ (cats.map normCat).count k = 0 then none
        else some ((lookupCat m k).getD 0 + (cats.map normCat).count k) := by
  induction cats with
  | nil =>
    intro m k
    cases h : lookupCat m k <;> simp [h]
  | cons c cats ih =>
    intro m k
    rw [List.foldl_cons, ih (bumpCat m (normCat c)) k, lookupCat_bumpCat]
    by_cases hc : k = normCat c
    · have hcount : ((c :: cats).map normCat).count k =
          (cats.map normCat).count k + 1 := by
        simp [List.count_cons, hc]
      rw [hcount, hc]
      cases h : lookupCat m (normCat c) <;> simp [h] <;> omega
    · have hcount : ((c :: cats).map normCat).count k =
          (cats.map normCat).count k := by
        simp [List.count_cons, Ne.symm hc]
      rw [hcount]
      simp [hc]

theorem categoryMap_lookup (cats : List String) (k : String) :
    lookupCat (categoryMap cats) k =
      if (cats.map normCat).count k = 0 then none
      else some ((cats.map normCat).count k) := by
  rw [categoryMap, foldl_bumpCat_lookup]
  simp [lookupCat]

theorem categoryMap_mem_iff (cats : List String) (k : String) (n : ℕ) :
    (k, n) ∈ categoryMap cats ↔
      k ∈ cats.map normCat ∧ n = (cats.map normCat).count k := by
  rw [mem_iff_lookupCat (categoryMap_keys_nodup cats), categoryMap_lookup]
  by_cases h : (cats.map normCat).count k = 0
  · have : k ∉ cats.map normCat := List.count_eq_zero.mp h
    simp [h, this]
  · have : k ∈ cats.map normCat := by
      by_contra hk
      exact h (List.count_eq_zero.mpr hk)
    simp [h, this, eq_comm]

theorem categoryMap_keys_firstSeen (cats : List String) :
    (categoryMap cats).map Prod.fst = firstSeenKeys cats := by
  suffices h : ∀ (l : List String) (m : List (String × ℕ)),
      ((l.foldl (fun m c => bumpCat m (normCat c)) m).map Prod.fst) =
        l.foldl (fun acc c => if normCat c ∈ acc then acc else acc ++ [normCat c])
          (m.map Prod.fst) by
    exact h cats []
  intro l
  induction l with
  | nil => intro m; rfl
  | cons c l ih =>
    intro m
    rw [List.foldl_cons, List.foldl_cons, ih, bumpCat_keys]

/-- C8: for every list of records (each record contributing its `categories`
array), `getMemoryCategories` aggregation satisfies: (1) a `(category,
count)` pair appears in the output iff the category is the normalization
(case-fold + trim) of some input category string and the count is the number
of input occurrences normalizing to it, so case variants merge into one
entry; (2) the output is sorted by count descending; (3) ties keep the
counter's order (stable sort); (4) the counter lists categories in
first-seen order; (5) records with categories `["Preferences", "projects"]`
and `["preferences"]` yield `preferences: 2, projects: 1`. -/
theorem aggregateCategories_spec (records : List (List String)) :
    (∀ k n, (k, n) ∈ aggregateCategories records ↔
        k ∈ (records.flatMap (fun cs => cs)).map normCat ∧
          n = ((records.flatMap (fun cs => cs)).map normCat).count k) ∧
    (aggregateCategories records).Pairwise (fun a b => b.2 ≤ a.2) ∧
    (∀ n : ℕ, (aggregateCategories records).filter (fun p => p.2 == n) =
        (categoryMap (records.flatMap (fun cs => cs))).filter
          (fun p => p.2 == n)) ∧
    (categoryMap (records.flatMap (fun cs => cs))).map Prod.fst =
      firstSeenKeys (records.flatMap (fun cs => cs)) ∧
    aggregateCategories [["Preferences", "projects"], ["preferences"]] =
      [("preferences", 2), ("projects", 1)] := by
  refine ⟨?_, ?_, ?_, categoryMap_keys_firstSeen _, by decide⟩
  · intro k n
    rw [← categoryMap_mem_iff]
    exact (sortDesc_perm (fun p => p.2) (categoryMap _)).mem_iff
  · exact sortDesc_pairwise _ _
  · intro n
    exact sortDesc_filter_key _ n _

theorem foldl_append_of_flatMap {α β : Type} (f : α → List β) :
    ∀ (items : List α) (acc : List β),
      items.foldl (fun acc item => acc ++ f item) acc = acc ++ items.flatMap f := by
  intro items
  induction items with
  | nil => intro acc; simp
  | cons x xs ih =>
    intro acc
    rw [List.foldl_cons, ih]
    simp

theorem addMemory_calls (user content currentDate : String) (o : Except String Raw) :
    (addMemory (some user) content currentDate o).calls =
      [StoreCall.add user content
        { app_context := some appContextTag, created_at := some currentDate,
          last_updated := some currentDate, update_reason := none,
          previous_memory_id := none }] := by
  cases o with
  | error e => rfl
  | ok resp => cases h : extractMemoryText resp <;> simp [addMemory, h]

theorem searchMemories_calls (user query : String)
    (o : Except String (List SearchResult)) :
    (searchMemories (some user) query o).calls = [StoreCall.search user query] := by
  cases o with
  | error e => rfl
  | ok results =>
    simp only [searchMemories]
    split <;> rfl

theorem searchByCategory_calls (user : String) (categories : List String)
    (query : Option String) (limit : ℕ) (o : Except String (List SearchResult)) :
    (searchByCategory (some user) categories query limit o).calls =
      [StoreCall.search user (jsOrStr query (joinSep " " categories))] := by
  cases o with
  | error e => rfl
  | ok results =>
    simp only [searchByCategory]
    split <;> rfl

theorem getMemoryCategories_calls (user : String) (includeCount : Bool)
    (o : Except String (List SearchResult)) :
    (getMemoryCategories (some user) includeCount o).calls =
      [StoreCall.search user "*"] := by
  cases o with
  | error e => rfl
  | ok results =>
    simp only [getMemoryCategories]
    split <;> rfl

theorem getRelevantContext_calls (user conversationContext : String)
    (maxResults : Option ℤ) (o : Except String (List SearchResult)) :
    (getRelevantContext (some user) conversationContext maxResults o).calls =
      [StoreCall.search user conversationContext] := by
  cases o with
  | error e => rfl
  | ok results =>
    simp only [getRelevantContext]
    split <;> rfl

theorem deleteMemory_run (login : Option String) (ids : List String)
    (o : DeleteOracle) :
    deleteMemory login ids o =
      ⟨.text (joinSep "\n" (ids.map (fun memoryId => (deleteOne o memoryId).1))),
        ids.flatMap (fun memoryId => (deleteOne o memoryId).2)⟩ := by
  have h : ∀ (l : List String) (ts : List String) (cs : List StoreCall),
      l.foldl (fun acc memoryId =>
          let r := deleteOne o memoryId
          (acc.1 ++ [r.1], acc.2 ++ r.2)) (ts, cs) =
        (ts ++ l.map (fun memoryId => (deleteOne o memoryId).1),
          cs ++ l.flatMap (fun memoryId => (deleteOne o memoryId).2)) := by
    intro l
    induction l with
    | nil => intro ts cs; simp
    | cons x xs ih =>
      intro ts cs
      rw [List.foldl_cons, ih]
      simp
  simp only [deleteMemory]
  rw [h]
  simp

theorem delete_mem_deleteOne (o : DeleteOracle) (a memoryId : String) :
    StoreCall.delete memoryId ∈ (deleteOne o a).2 ↔
      memoryId = a ∧ getOk o a = true := by
  unfold deleteOne deleteOneAt getOk
  cases o.getResult a with
  | error e => simp
  | ok md =>
    cases o.deleteResult a with
    | error e => simp [eq_comm]
    | ok u => simp [eq_comm]

/-- C9: the revised worker's `deleteMemory` processes every id of the batch
independently: the result text is the join of one report line per id (so
the batch length is preserved and partial success is an ordinary text
result, not a batch-level error), the calls are the concatenation of each
id's own `get`-then-`delete` attempts, each id's outcome is a function of
that id's own store responses alone, a `delete` call is attempted for an id
iff its `get` succeeded — independent of any other id's failure — and the
claimed `[A, B]`-with-`B`-missing batch deletes `A` and reports the per-id
mixed outcome. -/
theorem deleteMemory_batch_spec (login : Option String) (ids : List String)
    (o : DeleteOracle) :
    (deleteMemory login ids o).outcome =
      ToolOutcome.text
        (joinSep "\n" (ids.map (fun memoryId => (deleteOne o memoryId).1))) ∧
    (deleteMemory login ids o).calls =
      ids.flatMap (fun memoryId => (deleteOne o memoryId).2) ∧
    (ids.map (fun memoryId => (deleteOne o memoryId).1)).length = ids.length ∧
    (∀ memoryId, deleteOne o memoryId =
        deleteOneAt memoryId (o.getResult memoryId) (o.deleteResult memoryId)) ∧
    (∀ memoryId, StoreCall.delete memoryId ∈ (deleteMemory login ids o).calls ↔
        memoryId ∈ ids ∧ getOk o memoryId = true) ∧
    (deleteMemory none ["A", "B"] sampleDeleteOracle).outcome =
      ToolOutcome.text
        "Deleted: \"User prefers dark mode\"\nError deleting memory B: Memory not found" := by
  refine ⟨?_, ?_, by simp, fun _ => rfl, ?_, by rfl⟩
  · rw [deleteMemory_run]
  · rw [deleteMemory_run]
  · intro memoryId
    rw [deleteMemory_run]
    simp only [List.mem_flatMap]
    constructor
    · rintro ⟨a, ha, hmem⟩
      rcases (delete_mem_deleteOne o a memoryId).mp hmem with ⟨rfl, hok⟩
      exact ⟨ha, hok⟩
    · rintro ⟨hmem, hok⟩
      exact ⟨memoryId, hmem, (delete_mem_deleteOne o memoryId memoryId).mpr ⟨rfl, hok⟩⟩

/-- C3: stated as claimed, `deleteMemory` too would refuse to touch the
store without an authenticated identity; the revised worker's handler has
no such gate, so an unauthenticated batch still issues a `get` call and
returns a per-id report instead of the fixed not-authenticated text. -/
theorem deleteMemory_no_gate_counterexample :
    (deleteMemory none ["m1"] sampleDeleteOracle).calls = [StoreCall.get "m1"] ∧
    (deleteMemory none ["m1"] sampleDeleteOracle).outcome ≠
      ToolOutcome.text notAuthText := by
  exact ⟨rfl, by decide⟩

/-- C3 (amended): six of the seven identity-scoped tools (`addMemory`,
`searchMemories`, `searchByCategory`, `getMemoryCategories`,
`getRelevantContext`, `updateMemory`) short-circuit on a missing login with
the fixed `Error: User not authenticated.` text and no store call;
`deleteMemory` has no authentication gate and always runs its per-id
`get`/`delete` loop. -/
theorem unauthenticated_gate_spec :
    (∀ content currentDate o,
        addMemory none content currentDate o = ⟨.text notAuthText, []⟩) ∧
    (∀ query o, searchMemories none query o = ⟨.text notAuthText, []⟩) ∧
    (∀ categories query limit o,
        searchByCategory none categories query limit o = ⟨.text notAuthText, []⟩) ∧
    (∀ includeCount o,
        getMemoryCategories none includeCount o = ⟨.text notAuthText, []⟩) ∧
    (∀ conversationContext maxResults o,
        getRelevantContext none conversationContext maxResults o =
          ⟨.text notAuthText, []⟩) ∧
    (∀ memoryId newContent reason currentDate o,
        updateMemory none memoryId newContent reason currentDate o =
          ⟨.text notAuthText, []⟩) ∧
    (∀ ids o, (deleteMemory none ids o).calls =
        ids.flatMap (fun memoryId => (deleteOne o memoryId).2)) := by
  refine ⟨fun _ _ _ => rfl, fun _ _ => rfl, fun _ _ _ _ => rfl, fun _ _ => rfl,
    fun _ _ _ => rfl, fun _ _ _ _ _ => rfl, fun ids o => ?_⟩
  rw [deleteMemory_run]

/-- C2: stated as claimed, a delete-succeeded/recreate-failed update would
be reported distinctly from an ordinary failure.  In the code both runs
land in the single catch-all and produce the identical generic text, so the
data-loss case is indistinguishable from a delete failure (though,
concretely, it is also distinct from the success report, so it is at least
never a silent success). -/
theorem updateMemory_dataLoss_counterexample :
    (updateMemory (some "alice") "m1" "new content" none
        "2024-02-02T00:00:00.000Z" updateOracleDeleteFails).outcome =
      ToolOutcome.text "Error updating memory: boom" ∧
    (updateMemory (some "alice") "m1" "new content" none
        "2024-02-02T00:00:00.000Z" updateOracleAddFails).outcome =
      ToolOutcome.text "Error updating memory: boom" ∧
    (updateMemory (some "alice") "m1" "new content" none
        "2024-02-02T00:00:00.000Z" updateOracleAddFails).outcome ≠
      (updateMemory (some "alice") "m1" "new content" none
        "2024-02-02T00:00:00.000Z" updateOracleOk).outcome := by
  exact ⟨rfl, rfl, by decide⟩

/-- C2 (amended): `updateMemory` distinguishes only the not-found case
(fetch returned no record) with its dedicated text; every thrown failure —
fetch, delete, or recreate-after-successful-delete — is reported through
the one generic `Error updating memory: {message}` text, so the data-loss
case is not surfaced distinctly from an ordinary failure; a recreate
failure is reported as this error text, never as a success. -/
theorem updateMemory_failure_reporting (user memoryId newContent : String)
    (reason : Option String) (currentDate : String) (o : UpdateOracle) :
    (∀ e, o.getResult = .error e →
      (updateMemory (some user) memoryId newContent reason currentDate o).outcome =
        ToolOutcome.text ("Error updating memory: " ++ e)) ∧
    (o.getResult = .ok none →
      (updateMemory (some user) memoryId newContent reason currentDate o).outcome =
        ToolOutcome.text ("Error: Memory with ID " ++ memoryId ++ " not found.")) ∧
    (∀ rec e, o.getResult = .ok (some rec) → o.deleteResult = .error e →
      (updateMemory (some user) memoryId newContent reason currentDate o).outcome =
        ToolOutcome.text ("Error updating memory: " ++ e)) ∧
    (∀ rec e, o.getResult = .ok (some rec) → o.deleteResult = .ok () →
      o.addResult = .error e →
      (updateMemory (some user) memoryId newContent reason currentDate o).outcome =
        ToolOutcome.text ("Error updating memory: " ++ e)) := by
  refine ⟨?_, ?_, ?_, ?_⟩
  · intro e hg
    simp [updateMemory, hg]
  · intro hg
    simp [updateMemory, hg]
  · intro rec e hg hd
    simp [updateMemory, hg, hd]
  · intro rec e hg hd ha
    simp [updateMemory, hg, hd, ha]

/-- Witness for C2 (amended): the concrete delete-succeeded/recreate-failed
run reports the generic error text. -/
theorem updateMemory_failure_reporting_witness :
    updateOracleAddFails.getResult = .ok (some sampleRecord) ∧
    updateOracleAddFails.deleteResult = .ok () ∧
    updateOracleAddFails.addResult = .error "boom" ∧
    (updateMemory (some "alice") "m1" "new content" none
        "2024-02-02T00:00:00.000Z" updateOracleAddFails).outcome =
      ToolOutcome.text "Error updating memory: boom" :=
  ⟨rfl, rfl, rfl,
    (updateMemory_failure_reporting "alice" "m1" "new content" none
        "2024-02-02T00:00:00.000Z" updateOracleAddFails).2.2.2
      sampleRecord "boom" rfl rfl rfl⟩

/-- C7: on a successful update run (record fetched, delete succeeded, add
issued), the recreate `add` is scoped to the caller and carries metadata
preserving the fetched record's non-empty `created_at`, a fresh
`last_updated` equal to the run's current date, the (defaulted)
`update_reason`, and `previous_memory_id` equal to the deleted original's
id — and the run's calls show the original was deleted by exactly that id. -/
theorem updateMemory_metadata_spec (user memoryId newContent : String)
    (reason : Option String) (currentDate : String) (o : UpdateOracle)
    (rec : MemRecord) (c : String) (resp : Raw)
    (hget : o.getResult = .ok (some rec))
    (hdel : o.deleteResult = .ok ())
    (hadd : o.addResult = .ok resp)
    (hc : rec.metadata.bind (fun m => m.created_at) = some c)
    (hc0 : c ≠ "") :
    (updateMemory (some user) memoryId newContent reason currentDate o).calls =
      [StoreCall.get memoryId, StoreCall.delete memoryId,
        StoreCall.add user newContent
          { app_context := some appContextTag, created_at := some c,
            last_updated := some currentDate,
            update_reason := some (jsOrStr reason "Information updated"),
            previous_memory_id := some memoryId }] := by
  cases hx : extractMemoryText resp with
  | error e => simp [updateMemory, hget, hdel, hadd, hx, hc, jsOrStr, hc0]
  | ok v => simp [updateMemory, hget, hdel, hadd, hx, hc, jsOrStr, hc0]

/-- Witness for C7: the fully successful sample run recreates the record
with the preserved creation date and the back-reference. -/
theorem updateMemory_metadata_spec_witness :
    updateOracleOk.getResult = .ok (some sampleRecord) ∧
    sampleRecord.metadata.bind (fun m => m.created_at) =
      some "2024-01-01T00:00:00.000Z" ∧
    (updateMemory (some "alice") "m1" "new content" none
        "2024-02-02T00:00:00.000Z" updateOracleOk).calls =
      [StoreCall.get "m1", StoreCall.delete "m1",
        StoreCall.add "alice" "new content"
          { app_context := some appContextTag,
            created_at := some "2024-01-01T00:00:00.000Z",
            last_updated := some "2024-02-02T00:00:00.000Z",
            update_reason := some (jsOrStr none "Information updated"),
            previous_memory_id := some "m1" }] :=
  ⟨rfl, rfl,
    updateMemory_metadata_spec "alice" "m1" "new content" none
      "2024-02-02T00:00:00.000Z" updateOracleOk sampleRecord
      "2024-01-01T00:00:00.000Z" (.str "User prefers light mode")
      rfl rfl rfl rfl (by decide)⟩

/-- C1: stated as claimed, every store call would be scoped by the caller's
`userKey`.  The `get` issued by a successful `updateMemory` run carries no
user scope at all — it is keyed only by the global memory id. -/
theorem storeCall_scoping_counterexample :
    StoreCall.get "m1" ∈
        (updateMemory (some "alice") "m1" "new content" none "d"
          updateOracleOk).calls ∧
    (StoreCall.get "m1").userScope = none := by
  exact ⟨by decide, rfl⟩

/-- C1 (amended): for an authenticated caller, every `add` and `search`
call any of the seven tools makes is scoped by exactly the caller's user
key; but the `get` and `delete` calls issued by `updateMemory` and
`deleteMemory` carry no user scope at all — they are keyed only by the
global memory id, so per-user isolation of reads and deletes by id is not
enforced by the facade itself. -/
theorem storeCall_scoping (user : String) :
    (∀ content currentDate o,
        ∀ call ∈ (addMemory (some user) content currentDate o).calls,
          call.userScope = some user) ∧
    (∀ query o, ∀ call ∈ (searchMemories (some user) query o).calls,
        call.userScope = some user) ∧
    (∀ categories query limit o,
        ∀ call ∈ (searchByCategory (some user) categories query limit o).calls,
          call.userScope = some user) ∧
    (∀ includeCount o,
        ∀ call ∈ (getMemoryCategories (some user) includeCount o).calls,
          call.userScope = some user) ∧
    (∀ conversationContext maxResults o,
        ∀ call ∈ (getRelevantContext (some user) conversationContext maxResults o).calls,
          call.userScope = some user) ∧
    (∀ memoryId newContent reason currentDate o,
        ∀ call ∈ (updateMemory (some user) memoryId newContent reason currentDate o).calls,
          call.userScope = some user ∨
            (call.userScope = none ∧
              (call = StoreCall.get memoryId ∨ call = StoreCall.delete memoryId))) ∧
    (∀ login ids o, ∀ call ∈ (deleteMemory login ids o).calls,
        call.userScope = none ∧
          ∃ memoryId ∈ ids,
            call = StoreCall.get memoryId ∨ call = StoreCall.delete memoryId) := by
  refine ⟨?_, ?_, ?_, ?_, ?_, ?_, ?_⟩
  · intro content currentDate o call hc
    rw [addMemory_calls] at hc
    rcases List.mem_singleton.mp hc with rfl
    rfl
  · intro query o call hc
    rw [searchMemories_calls] at hc
    rcases List.mem_singleton.mp hc with rfl
    rfl
  · intro categories query limit o call hc
    rw [searchByCategory_calls] at hc
    rcases List.mem_singleton.mp hc with rfl
    rfl
  · intro includeCount o call hc
    rw [getMemoryCategories_calls] at hc
    rcases List.mem_singleton.mp hc with rfl
    rfl
  · intro conversationContext maxResults o call hc
    rw [getRelevantContext_calls] at hc
    rcases List.mem_singleton.mp hc with rfl
    rfl
  · intro memoryId newContent reason currentDate o call hc
    cases hg : o.getResult with
    | error e =>
      simp only [updateMemory, hg] at hc
      rcases List.mem_singleton.mp hc with rfl
      exact Or.inr ⟨rfl, Or.inl rfl⟩
    | ok mrec =>
      cases mrec with
      | none =>
        simp only [updateMemory, hg] at hc
        rcases List.mem_singleton.mp hc with rfl
        exact Or.inr ⟨rfl, Or.inl rfl⟩
      | some rec =>
        cases hd : o.deleteResult with
        | error e =>
          simp only [updateMemory, hg, hd] at hc
          rcases List.mem_cons.mp hc with rfl | hc'
          · exact Or.inr ⟨rfl, Or.inl rfl⟩
          · rcases List.mem_singleton.mp hc' with rfl
            exact Or.inr ⟨rfl, Or.inr rfl⟩
        | ok u =>
          have hc' : call ∈ [StoreCall.get memoryId, StoreCall.delete memoryId,
              StoreCall.add user newContent
                { app_context := some appContextTag,
                  created_at :=
                    some (jsOrStr (rec.metadata.bind (fun m => m.created_at))
                      currentDate),
                  last_updated := some currentDate,
                  update_reason := some (jsOrStr reason "Information updated"),
                  previous_memory_id := some memoryId }] := by
            cases ha : o.addResult with
            | error e =>
              simpa only [updateMemory, hg, hd, ha] using hc
            | ok resp =>
              cases hx : extractMemoryText resp with
              | error e => simpa only [updateMemory, hg, hd, ha, hx] using hc
              | ok v => simpa only [updateMemory, hg, hd, ha, hx] using hc
          rcases List.mem_cons.mp hc' with rfl | hc''
          · exact Or.inr ⟨rfl, Or.inl rfl⟩
          · rcases List.mem_cons.mp hc'' with rfl | hc'''
            · exact Or.inr ⟨rfl, Or.inr rfl⟩
            · rcases List.mem_singleton.mp hc''' with rfl
              exact Or.inl rfl
  · intro login ids o call hc
    rw [deleteMemory_run] at hc
    rcases List.mem_flatMap.mp hc with ⟨memoryId, hmem, hcall⟩
    have hsub : call = StoreCall.get memoryId ∨ call = StoreCall.delete memoryId := by
      unfold deleteOne deleteOneAt at hcall
      cases hg2 : o.getResult memoryId with
      | error e =>
        simp only [hg2] at hcall
        rcases List.mem_singleton.mp hcall with rfl
        exact Or.inl rfl
      | ok md =>
        cases hd2 : o.deleteResult memoryId with
        | error e =>
          simp only [hg2, hd2] at hcall
          rcases List.mem_cons.mp hcall with rfl | h2
          · exact Or.inl rfl
          · rcases List.mem_singleton.mp h2 with rfl
            exact Or.inr rfl
        | ok u =>
          simp only [hg2, hd2] at hcall
          rcases List.mem_cons.mp hcall with rfl | h2
          · exact Or.inl rfl
          · rcases List.mem_singleton.mp h2 with rfl
            exact Or.inr rfl
    refine ⟨?_, memoryId, hmem, hsub⟩
    rcases hsub with rfl | rfl <;> rfl

/-- Witness for C1 (amended): the single search call of a concrete
`searchMemories` run is scoped to the caller. -/
theorem storeCall_scoping_witness :
    (StoreCall.search "alice" "theme preference").userScope = some "alice" :=
  (storeCall_scoping "alice").2.1 "theme preference" (.ok [])
    (StoreCall.search "alice" "theme preference") (by decide)

theorem jsSliceEnd_length_le {α : Type} (l : List α) (e : ℤ) (he : 0 ≤ e) :
    ((jsSliceEnd l e).length : ℤ) ≤ e := by
  unfold jsSliceEnd
  rw [if_neg (not_lt.mpr he)]
  calc ((l.take e.toNat).length : ℤ) ≤ (e.toNat : ℤ) := by
        exact_mod_cast List.length_take_le _ _
    _ = e := Int.toNat_of_nonneg he

/-- C10: stated as claimed, the rendered count would never exceed
`min(maxResults, 5)` for every value of `maxResults`.  A negative
`maxResults` reaches `slice(0, …)` as a from-the-end offset: with three
admissible results and `maxResults = -2` one memory is rendered, yet
`min(-2, 5) = -2`. -/
theorem getRelevantContext_cap_counterexample :
    renderedCount (getRelevantContext (some "u") "ctx" (some (-2))
        (Except.ok ctxResults)) = 1 ∧
    ¬ ((renderedCount (getRelevantContext (some "u") "ctx" (some (-2))
          (Except.ok ctxResults)) : ℤ) ≤ min (-2 : ℤ) 5) := by
  exact ⟨rfl, by decide⟩

/-- C10 (amended): for every non-negative `maxResults` (the schema default
is 3 when it is omitted, as the last conjunct shows), the number of
memories `getRelevantContext` renders is at most `min(maxResults, 5)` — in
particular at most the fixed cap of 5 even when the caller requests more. -/
theorem getRelevantContext_cap (user conversationContext : String)
    (maxResults : Option ℤ) (o : Except String (List SearchResult))
    (h : 0 ≤ maxResults.getD 3) :
    ((renderedCount (getRelevantContext (some user) conversationContext
          maxResults o) : ℤ) ≤ min (maxResults.getD 3) 5) ∧
    renderedCount (getRelevantContext (some user) conversationContext
        maxResults o) ≤ 5 ∧
    getRelevantContext (some user) conversationContext none o =
      getRelevantContext (some user) conversationContext (some 3) o := by
  have hmin : 0 ≤ min (maxResults.getD 3) 5 := le_min h (by norm_num)
  have hcount : ((renderedCount (getRelevantContext (some user)
      conversationContext maxResults o) : ℤ) ≤ min (maxResults.getD 3) 5) := by
    cases o with
    | error e => simpa [getRelevantContext, renderedCount] using hmin
    | ok results =>
      simp only [getRelevantContext]
      split
      · simpa [renderedCount] using hmin
      · simpa [renderedCount] using
          jsSliceEnd_length_le
            (sortDesc scoreValD (results.filter (isRelevant getRelevantContextMinScore)))
            (min (maxResults.getD 3) 5) hmin
  refine ⟨hcount, ?_, rfl⟩
  have h5 : min (maxResults.getD 3) 5 ≤ (5 : ℤ) := min_le_right _ _
  omega

/-- Witness for C10 (amended): requesting 7 memories still renders at most
`min(7, 5) = 5`. -/
theorem getRelevantContext_cap_witness :
    (0 : ℤ) ≤ (Option.getD (some 7) 3) ∧
    ((renderedCount (getRelevantContext (some "u") "ctx" (some 7)
        (Except.ok ctxResults)) : ℤ) ≤ min (7 : ℤ) 5) :=
  ⟨by decide,
    (getRelevantContext_cap "u" "ctx" (some 7) (Except.ok ctxResults)
      (by decide)).1⟩

theorem finishTexts_strs (ss : List String) (hne : ss ≠ []) :
    finishTexts (ss.map Raw.str) = joinSep "; " ss := by
  unfold finishTexts
  have h1 : (ss.map Raw.str).isEmpty = false := by
    cases ss with
    | nil => exact absurd rfl hne
    | cons a l => rfl
  rw [h1]
  simp only [Bool.false_eq_true, if_false, List.map_map,
    show (jsString ∘ Raw.str) = fun s : String => s from rfl]
  rw [List.map_id']

/-- C6: stated as claimed, `extractMemoryText` would return a string and
never throw on any raw value.  A `memories` field holding a non-array with
positive length makes its `forEach` throw a `TypeError`, and a truthy
non-string `message` field is returned as-is, not as a string. -/
theorem extractMemoryText_counterexample :
    extractMemoryText (Raw.obj [("memories", Raw.str "abc")]) =
      Except.error "response.memories.forEach is not a function" ∧
    extractMemoryText (Raw.obj [("message", Raw.num 42)]) =
      Except.ok (Raw.num 42) :=
  ⟨rfl, rfl⟩

/-- C6 (amended): `extractMemoryText` is total except that it throws a
`TypeError` when the `memories` field is a non-array of positive length,
and an object's truthy non-string `message`/`text` is returned unchanged;
on the supported shapes with (non-empty, where truthiness demands it)
string-valued fields it extracts, in the code's precedence order: a bare
string is returned as-is; an array contributes per element the nested
`data.memory`, a bare string element, `text`, or `memory`, joined with
`'; '`; an object's `memories` array contributes `text` or `memory` per
element, joined likewise; otherwise a non-empty string `message`, then
`text`, is returned; and every value matching none of the shapes (numbers,
booleans, `null`, objects without those fields, arrays and `memories`
arrays yielding no text) gets the non-empty fallback notice instead of an
exception or an empty result. -/
theorem extractMemoryText_spec :
    (∀ s, extractMemoryText (Raw.str s) = Except.ok (Raw.str s)) ∧
    (∀ s, s ≠ "" →
      extractItemTexts (Raw.obj [("data", Raw.obj [("memory", Raw.str s)])]) =
        [Raw.str s]) ∧
    (∀ s, extractItemTexts (Raw.str s) = [Raw.str s]) ∧
    (∀ s, s ≠ "" → extractItemTexts (Raw.obj [("text", Raw.str s)]) = [Raw.str s]) ∧
    (∀ s, s ≠ "" → extractItemTexts (Raw.obj [("memory", Raw.str s)]) = [Raw.str s]) ∧
    (∀ items ss, items.flatMap extractItemTexts = ss.map Raw.str → ss ≠ [] →
      extractMemoryText (Raw.arr items) = Except.ok (Raw.str (joinSep "; " ss))) ∧
    (∀ items, items.flatMap extractItemTexts = [] →
      extractMemoryText (Raw.arr items) = Except.ok (Raw.str fallbackNotice)) ∧
    (∀ s, s ≠ "" → memTexts (Raw.obj [("text", Raw.str s)]) = [Raw.str s]) ∧
    (∀ s, s ≠ "" → memTexts (Raw.obj [("memory", Raw.str s)]) = [Raw.str s]) ∧
    (∀ fields mems ss, lookupField fields "memories" = some (Raw.arr mems) →
      mems.flatMap memTexts = ss.map Raw.str → ss ≠ [] →
      extractMemoryText (Raw.obj fields) = Except.ok (Raw.str (joinSep "; " ss))) ∧
    (∀ fields s, lookupField fields "memories" = none →
      lookupField fields "message" = some (Raw.str s) → s ≠ "" →
      extractMemoryText (Raw.obj fields) = Except.ok (Raw.str s)) ∧
    (∀ fields s, lookupField fields "memories" = none →
      lookupField fields "message" = none →
      lookupField fields "text" = some (Raw.str s) → s ≠ "" →
      extractMemoryText (Raw.obj fields) = Except.ok (Raw.str s)) ∧
    (∀ q, extractMemoryText (Raw.num q) = Except.ok (Raw.str fallbackNotice)) ∧
    (∀ b, extractMemoryText (Raw.boolean b) = Except.ok (Raw.str fallbackNotice)) ∧
    (extractMemoryText Raw.null = Except.ok (Raw.str fallbackNotice)) ∧
    (∀ fields, lookupField fields "memories" = none →
      lookupField fields "message" = none → lookupField fields "text" = none →
      extractMemoryText (Raw.obj fields) = Except.ok (Raw.str fallbackNotice)) ∧
    fallbackNotice ≠ "" := by
  refine ⟨fun s => rfl, ?_, fun s => rfl, ?_, ?_, ?_, ?_, ?_, ?_, ?_, ?_, ?_,
    fun q => rfl, fun b => rfl, rfl, ?_, by decide⟩
  · intro s hs
    simp [extractItemTexts, optProp, getProp, lookupField, truthy, hs]
  · intro s hs
    simp [extractItemTexts, optProp, getProp, lookupField, truthy, hs]
  · intro s hs
    simp [extractItemTexts, optProp, getProp, lookupField, truthy, hs]
  · intro items ss hflat hne
    simp only [extractMemoryText]
    rw [foldl_append_of_flatMap extractItemTexts items [], List.nil_append, hflat,
      finishTexts_strs ss hne]
  · intro items hflat
    simp only [extractMemoryText]
    rw [foldl_append_of_flatMap extractItemTexts items [], List.nil_append, hflat]
    rfl
  · intro s hs
    simp [memTexts, optProp, getProp, lookupField, truthy, hs]
  · intro s hs
    simp [memTexts, optProp, getProp, lookupField, truthy, hs]
  · intro fields mems ss hmem hflat hne
    have hmems : mems ≠ [] := by
      intro h0
      subst h0
      simp only [List.flatMap_nil] at hflat
      exact hne (List.map_eq_nil_iff.mp hflat.symm)
    have hlen : (0 : ℚ) < (mems.length : ℚ) := by
      exact_mod_cast List.length_pos.mpr hmems
    have hopt : optProp (some (Raw.obj fields)) "memories" = some (Raw.arr mems) := by
      simp [optProp, getProp, hmem]
    have hguard : jsNumGtZero (optProp (some (Raw.arr mems)) "length") = true := by
      simp [optProp, getProp, jsNumGtZero, hlen]
    simp [extractMemoryText, hopt, hguard]
    rw [foldl_append_of_flatMap memTexts mems [], List.nil_append, hflat,
      finishTexts_strs ss hne]
  · intro fields s hmem hmsg hs
    simp [extractMemoryText, optProp, getProp, hmem, hmsg, jsNumGtZero, truthy, hs]
  · intro fields s hmem hmsg htxt hs
    simp [extractMemoryText, optProp, getProp, hmem, hmsg, htxt, jsNumGtZero,
      truthy, hs]
  · intro fields hmem hmsg htxt
    simp [extractMemoryText, optProp, getProp, hmem, hmsg, htxt, jsNumGtZero,
      truthy]

/-- Witness for C6 (amended): the array-of-nested-`data.memory` shape at a
concrete two-element response extracts and joins both texts. -/
theorem extractMemoryText_spec_witness :
    ([Raw.obj [("data", Raw.obj [("memory", Raw.str "a")])],
        Raw.obj [("data", Raw.obj [("memory", Raw.str "b")])]].flatMap
      extractItemTexts = (["a", "b"].map Raw.str)) ∧
    extractMemoryText (Raw.arr [Raw.obj [("data", Raw.obj [("memory", Raw.str "a")])],
        Raw.obj [("data", Raw.obj [("memory", Raw.str "b")])]]) =
      Except.ok (Raw.str "a; b") :=
  ⟨rfl,
    extractMemoryText_spec.2.2.2.2.2.1
      [Raw.obj [("data", Raw.obj [("memory", Raw.str "a")])],
        Raw.obj [("data", Raw.obj [("memory", Raw.str "b")])]]
      ["a", "b"] rfl (by decide)⟩

end Minne
